import Mathlib

/-!
Verification of the `deep` package (`src/deep.go`): `deep.Equal` compares two
runtime values by reflection and returns a list of human-readable differences,
bounded by the package-level limits `MaxDepth` and `MaxDiff`, comparing floats
by fixed-point rendering at `FloatPrecision` digits.

The embedding models Go runtime values (`reflect.Value`) as the inductive
family `Val`: pointer/interface indirections (a nil indirection unwraps to an
invalid value), structs (whose type may expose an `Equal` method, modelled by
an equivalence-class token, as for `time.Time`), maps and slices (nilable, and
carrying an identity for the `Pointer()` short-circuit; map keys are modelled
as strings, the key kind exercised by the spec), float leaves (the exact
binary value `num / 2^exp` of the float64, as a pair of integers), the other
primitive leaves, and values of unsupported kinds.

The recursive walk `equals` of the source is modelled by `equalsF`, a
fuel-indexed mutual recursion (the fuel only realises termination in Lean; the
public wrapper `Equal` supplies fuel larger than the input structures, and
`equalsF_no_outOfFuel` proves that fuel is never exhausted).  Go panics that
the source can raise (calling `Type` on a zero `reflect.Value`, accessing a
value with a kind-mismatched accessor after interface unwrapping) are modelled
as `Except.error`; `logError` calls are silent no-ops and are not modelled.
-/

namespace Deep

/-- The package-level configuration variables of `deep.go` lines 38-44
(`FloatPrecision`, `MaxDiff`, `MaxDepth`, `CompareUnexportedFields`), read-only
during a comparison.  `LogErrors` only controls diagnostic logging, which has
no observable effect on results, and is omitted. -/
structure Config where
  FloatPrecision : Nat
  MaxDiff : Nat
  MaxDepth : Nat
  CompareUnexportedFields : Bool

/-- The default values of the package-level variables. -/
def defaultConfig : Config := ⟨10, 10, 10, false⟩

mutual
/-- A Go runtime value as seen through `reflect.Value`.  Each constructor
carries the rendering of its dynamic `reflect.Type` (types are equal iff their
renderings agree).  `ptr` covers both `reflect.Ptr` and `reflect.Interface`
(both are unwrapped by one `Elem()` in `equals`); a `ptr` with `VOpt.none`
elem is a nil indirection, whose `Elem()` is an invalid value.  `structV`
carries `eqTok`, the equivalence-class token of the type's `Equal` method when
it has one (`none` for plain structs).  `mapV`/`sliceV` carry `none` entries
when nil, and an identity `id` modelling `Pointer()`.  `floatV` carries the
exact rational value `num / 2^exp` of the float64/float32.  `unsupported`
covers kinds the switch of `equals` does not handle (func, chan, complex, …),
with an opaque content tag. -/
inductive Val where
  | ptr (ty : String) (elem : VOpt)
  | structV (ty : String) (eqTok : Option Nat) (fields : Fields)
  | mapV (ty : String) (entries : MOpt) (id : Nat)
  | sliceV (ty : String) (elems : SOpt) (id : Nat)
  | floatV (ty : String) (num : Int) (exp : Nat)
  | boolV (ty : String) (b : Bool)
  | intV (ty : String) (i : Int)
  | uintV (ty : String) (u : Nat)
  | stringV (ty : String) (s : String)
  | unsupported (ty : String) (content : Nat)
/-- Possibly-absent value: the result of `Elem()` on an indirection. -/
inductive VOpt where
  | none
  | some (v : Val)
/-- Struct fields in declaration order: name, exported flag (`PkgPath == ""`),
and field value. -/
inductive Fields where
  | nil
  | cons (name : String) (exported : Bool) (v : Val) (rest : Fields)
/-- A map's entries, or `none` for a nil map. -/
inductive MOpt where
  | none
  | some (l : Entries)
/-- Map entries in iteration order (Go's map iteration order is unspecified;
the model fixes the order the association list presents). -/
inductive Entries where
  | nil
  | cons (k : String) (v : Val) (rest : Entries)
/-- A slice's elements, or `none` for a nil slice. -/
inductive SOpt where
  | none
  | some (l : Elems)
/-- Slice elements in index order. -/
inductive Elems where
  | nil
  | cons (v : Val) (rest : Elems)
end

/-- The rendering of a value's dynamic `reflect.Type` (`a.Type()`). -/
def Val.ty : Val → String
  | .ptr t _ => t
  | .structV t _ _ => t
  | .mapV t _ _ => t
  | .sliceV t _ _ => t
  | .floatV t _ _ => t
  | .boolV t _ => t
  | .intV t _ => t
  | .uintV t _ => t
  | .stringV t _ => t
  | .unsupported t _ => t

mutual
/-- Number of structural nodes of a value (used only to supply sufficient
fuel; `sizeOf` of a mutual inductive is not executable). -/
def vsize : Val → Nat
  | .ptr _ e => 1 + osize e
  | .structV _ _ f => 1 + fsize f
  | .mapV _ m _ => 1 + msize m
  | .sliceV _ s _ => 1 + lsize s
  | .floatV _ _ _ => 1
  | .boolV _ _ => 1
  | .intV _ _ => 1
  | .uintV _ _ => 1
  | .stringV _ _ => 1
  | .unsupported _ _ => 1
/-- Node count of a possibly-absent value. -/
def osize : VOpt → Nat
  | .none => 0
  | .some v => vsize v
/-- Node count of a field list. -/
def fsize : Fields → Nat
  | .nil => 0
  | .cons _ _ v rest => 1 + vsize v + fsize rest
/-- Node count of a possibly-nil entry list. -/
def msize : MOpt → Nat
  | .none => 0
  | .some l => esize l
/-- Node count of an entry list. -/
def esize : Entries → Nat
  | .nil => 0
  | .cons _ v rest => 1 + vsize v + esize rest
/-- Node count of a possibly-nil element list. -/
def lsize : SOpt → Nat
  | .none => 0
  | .some l => llsize l
/-- Node count of an element list. -/
def llsize : Elems → Nat
  | .nil => 0
  | .cons v rest => 1 + vsize v + llsize rest
end

mutual
/-- Modelled `fmt` `%v` rendering of a value, as used by `saveDiff`
(`deep.go` line 309).  Structs render as `{f1 f2}`, maps as `map[k:v …]`,
slices as `[e1 e2]`, nil indirections as `<nil>`, present indirections as
`&v` (addresses are not modelled), primitives by their decimal/text value.
Floats render their exact binary value as `num@exp` (meaning `num / 2^exp`);
Go renders the shortest round-trip decimal — both renderings are injective in
the float's value, which is what the theorems about difference records use.
Go consults `String()`/`Error()` methods and sorts map keys when rendering;
neither detail is modelled. -/
def vreprV : Val → String
  | .ptr _ .none => "<nil>"
  | .ptr _ (.some e) => "&" ++ vreprV e
  | .structV _ _ fields => "\x7b" ++ vreprFields fields ++ "\x7d"
  | .mapV _ .none _ => "map[]"
  | .mapV _ (.some ents) _ => "map[" ++ vreprEntries ents ++ "]"
  | .sliceV _ .none _ => "[]"
  | .sliceV _ (.some xs) _ => "[" ++ vreprElems xs ++ "]"
  | .floatV _ m e => toString m ++ "@" ++ toString e
  | .boolV _ b => toString b
  | .intV _ i => toString i
  | .uintV _ u => toString u
  | .stringV _ s => s
  | .unsupported _ content => "<unsupported " ++ toString content ++ ">"
/-- Space-separated `%v` renderings of struct field values. -/
def vreprFields : Fields → String
  | .nil => ""
  | .cons _ _ v .nil => vreprV v
  | .cons _ _ v rest => vreprV v ++ " " ++ vreprFields rest
/-- Space-separated `k:v` renderings of map entries. -/
def vreprEntries : Entries → String
  | .nil => ""
  | .cons k v .nil => k ++ ":" ++ vreprV v
  | .cons k v rest => k ++ ":" ++ vreprV v ++ " " ++ vreprEntries rest
/-- Space-separated `%v` renderings of slice elements. -/
def vreprElems : Elems → String
  | .nil => ""
  | .cons v .nil => vreprV v
  | .cons v rest => vreprV v ++ " " ++ vreprElems rest
end

/-- Round `num / den` (`den > 0`) to the nearest integer, ties to even: the
rounding `strconv` applies when formatting a float with `%.<prec>f`. -/
def roundHalfEven (num den : Int) : Int :=
  let q := num / den
  let r := num % den
  if 2 * r < den then q
  else if den < 2 * r then q + 1
  else if q % 2 = 0 then q else q + 1

/-- Left-pad a digit string with zeros to `prec` digits. -/
def padZeros (prec : Nat) (s : String) : String :=
  String.mk (List.replicate (prec - s.length) '0') ++ s

/-- Modelled `fmt.Sprintf("%.<prec>f", x)` applied to the float64 value
`num / 2^exp` (`deep.go` lines 269-270; the format string is precomputed from
`FloatPrecision` at line 70): the exact value is correctly rounded to `prec`
fractional decimal digits and rendered in fixed-point notation.  (The sign of
a negative zero is not modelled; the model has a single zero.) -/
def fmtFixed (prec : Nat) (num : Int) (exp : Nat) : String :=
  let m := roundHalfEven (num * 10 ^ prec) (2 ^ exp)
  if prec = 0 then toString m
  else
    (if m < 0 then "-" else "")
      ++ toString (m.natAbs / 10 ^ prec)
      ++ "." ++ padZeros prec (toString (m.natAbs % 10 ^ prec))

/-- Modelled `%v` rendering of an original float value passed to `saveDiff`
(`deep.go` line 272): an injective rendering of the exact value `num / 2^exp`
(Go prints the shortest round-trip decimal, also injective). -/
def fmtFloatV (num : Int) (exp : Nat) : String :=
  toString num ++ "@" ++ toString exp

/-- The comparison session state, `type cmp struct` (`deep.go` lines 52-56):
the accumulated difference records and the path stack.  (`floatFormat` is a
pure function of `Config.FloatPrecision` and is kept in the configuration.) -/
structure Cmp where
  diff : List String
  buff : List String

/-- `(*cmp).push` (line 296): push a path segment. -/
def Cmp.push (c : Cmp) (name : String) : Cmp :=
  { c with buff := c.buff ++ [name] }

/-- `(*cmp).pop` (line 300): pop the last path segment, if any. -/
def Cmp.pop (c : Cmp) : Cmp :=
  { c with buff := c.buff.dropLast }

/-- `(*cmp).saveDiff` (lines 306-313): append one difference record, prefixed
with the dot-joined path when the path stack is non-empty.  The two arguments
arrive already rendered (`%v` of what the call site passes). -/
def Cmp.saveDiff (c : Cmp) (aval bval : String) : Cmp :=
  if c.buff.length > 0 then
    { c with diff := c.diff ++ [String.intercalate "." c.buff ++ ": " ++ aval ++ " != " ++ bval] }
  else
    { c with diff := c.diff ++ [aval ++ " != " ++ bval] }

/-- An abnormal outcome of the walk: a Go panic (modelled by its message), or
exhaustion of the artificial fuel (never reached from `Equal`, see
`equalsF_no_outOfFuel`). -/
inductive GoErr where
  | outOfFuel
  | goPanic (msg : String)
deriving DecidableEq

/-- Reference/interface unwrapping (`deep.go` lines 93-108): one `Elem()` on a
pointer or interface, tracking the type to report — the element's type when
the element is valid, the original type otherwise. -/
def unwrap : Val → VOpt × String
  | .ptr t .none => (.none, t)
  | .ptr _ (.some v) => (.some v, v.ty)
  | v => (.some v, v.ty)

/-- The `Equal` method token carried directly by a value: a struct value
whose type declares a value-receiver `Equal` method (`time.Time`-like)
carries `some tok`.  `a.MethodByName("Equal")` (line 121) consults the
unwrapped value's whole method set, so `vswitch` additionally finds the
method through one level of pointer indirection (the value-receiver method
promoted into the pointer type's method set); two levels of indirection
expose no method (method sets do not promote twice).  The embedding records
method sets on values: a typed nil pointer whose element type has an `Equal`
method, and named non-struct types with `Equal` methods, are not
representable. -/
def eqTokOf : Val → Option Nat
  | .structV _ tok _ => tok
  | _ => none

/-- `a.MapIndex(key)` on the modelled entry list (`deep.go` lines 200-201,
216): the value at the first matching key, if any. -/
def lookupE (k : String) : Entries → Option Val
  | .nil => none
  | .cons k2 v rest => if k = k2 then some v else lookupE k rest

/-- Drop the head of an optional field list (the b-side cursor of the struct
loop advancing past a skipped field index). -/
def dropF : Option Fields → Option Fields
  | none => none
  | some .nil => some .nil
  | some (.cons _ _ _ rest) => some rest

/-- The `push`; `saveDiff`; `pop` sequence the loops perform when recording a
one-sided entry (missing key, missing index). -/
def pushSave (c : Cmp) (seg aval bval : String) : Cmp :=
  ((c.push seg).saveDiff aval bval).pop

mutual
/-- `(*cmp).equals` (`deep.go` lines 79-294), fuel-indexed.  In order: the
depth guard (line 80), the type identity check (line 87), indirection
unwrapping (lines 95-108), the nil-vs-present check (lines 111-118), the
`Equal`-method override (lines 121-128), then the kind switch (line 130):
structs, maps, slices, floats, bools, ints, uints, strings, and the silent
default for unsupported kinds (line 292).  Accessor calls that panic in Go
(e.g. `b.Int()` on a non-int after interface unwrapping, `Call` with a
mis-typed argument) are `Except.error`. -/
def equalsF (cfg : Config) : Nat → Val → Val → Nat → Cmp → Except GoErr Cmp
  | 0, _, _, _, _ => .error .outOfFuel
  | fuel+1, a, b, level, c =>
    if cfg.MaxDepth < level then .ok c
    else if a.ty ≠ b.ty then .ok (c.saveDiff a.ty b.ty)
    else
      match unwrap a, unwrap b with
      | (.some _, ta), (.none, _) => .ok (c.saveDiff ta "<nil pointer>")
      | (.none, _), (.some _, tb) => .ok (c.saveDiff "<nil pointer>" tb)
      | (.none, _), (.none, _) => .ok c
      | (.some a2, _), (.some b2, _) => vswitch cfg fuel a2 b2 level c
termination_by structural fuel _ _ _ _ => fuel
/-- The `Equal`-method override (`deep.go` lines 121-128) followed by the kind
switch (lines 130-293), applied to the two unwrapped values.  The method
lookup covers a struct value carrying a token and a pointer whose pointee
carries one (the value-receiver method promoted into the pointer's method
set, found on the once-unwrapped `**T` or interface-held `*T`); in the
promoted case `eqFunc.Call` expects an argument of the pointee's type, so it
panics whenever `b2`'s type differs from it — in particular always when both
sides are `*T`. -/
def vswitch (cfg : Config) : Nat → Val → Val → Nat → Cmp → Except GoErr Cmp
  | 0, _, _, _, _ => .error .outOfFuel
  | fuel+1, a2, b2, level, c =>
    match eqTokOf a2 with
    | some ta2 =>
      if a2.ty = b2.ty then
        match eqTokOf b2 with
        | some tb2 =>
          if ta2 ≠ tb2 then .ok (c.saveDiff (vreprV a2) (vreprV b2)) else .ok c
        | none => .error (.goPanic "reflect: Call using wrong argument type")
      else .error (.goPanic "reflect: Call using wrong argument type")
    | none =>
      match a2 with
      | .ptr _ (.some (.structV st (.some ta2) _)) =>
        if st = b2.ty then
          match eqTokOf b2 with
          | some tb2 =>
            if ta2 ≠ tb2 then .ok (c.saveDiff (vreprV a2) (vreprV b2)) else .ok c
          | none => .error (.goPanic "reflect: Call using wrong argument type")
        else .error (.goPanic "reflect: Call using wrong argument type")
      | .structV _ _ fa =>
        match b2 with
        | .structV _ _ fb => structLoopF cfg fuel fa (some fb) (level+1) c
        | _ => structLoopF cfg fuel fa none (level+1) c
      | .mapV _ ea ida =>
        match b2 with
        | .mapV _ eb idb =>
          match ea, eb with
          | .none, .none => .ok c
          | .none, .some _ => .ok (c.saveDiff "<nil map>" (vreprV b2))
          | .some _, .none => .ok (c.saveDiff (vreprV a2) "<nil map>")
          | .some la, .some lb =>
            if ida = idb then .ok c
            else mapLoop1F cfg fuel la lb la (level+1) c
        | _ => .error (.goPanic "reflect: call of reflect.Value.IsNil on wrong kind")
      | .sliceV _ ea ida =>
        match b2 with
        | .sliceV _ eb idb =>
          match ea, eb with
          | .none, .none => .ok c
          | .none, .some _ => .ok (c.saveDiff "<nil slice>" (vreprV b2))
          | .some _, .none => .ok (c.saveDiff (vreprV a2) "<nil slice>")
          | .some la, .some lb =>
            if ida = idb then .ok c
            else sliceLoopF cfg fuel 0 la lb (level+1) c
        | _ => .error (.goPanic "reflect: call of reflect.Value.IsNil on wrong kind")
      | .floatV _ m1 e1 =>
        match b2 with
        | .floatV _ m2 e2 =>
          if fmtFixed cfg.FloatPrecision m1 e1 ≠ fmtFixed cfg.FloatPrecision m2 e2 then
            .ok (c.saveDiff (fmtFloatV m1 e1) (fmtFloatV m2 e2))
          else .ok c
        | _ => .error (.goPanic "reflect: call of reflect.Value.Float on wrong kind")
      | .boolV _ x =>
        match b2 with
        | .boolV _ y =>
          if x ≠ y then .ok (c.saveDiff (toString x) (toString y)) else .ok c
        | _ => .error (.goPanic "reflect: call of reflect.Value.Bool on wrong kind")
      | .intV _ x =>
        match b2 with
        | .intV _ y =>
          if x ≠ y then .ok (c.saveDiff (toString x) (toString y)) else .ok c
        | _ => .error (.goPanic "reflect: call of reflect.Value.Int on wrong kind")
      | .uintV _ x =>
        match b2 with
        | .uintV _ y =>
          if x ≠ y then .ok (c.saveDiff (toString x) (toString y)) else .ok c
        | _ => .error (.goPanic "reflect: call of reflect.Value.Uint on wrong kind")
      | .stringV _ x =>
        match b2 with
        | .stringV _ y =>
          if x ≠ y then .ok (c.saveDiff x y) else .ok c
        | _ => .error (.goPanic "reflect: call of reflect.Value.String on wrong kind")
      | .ptr _ _ => .ok c
      | .unsupported _ _ => .ok c
termination_by structural fuel _ _ _ _ => fuel
/-- The struct field loop (`deep.go` lines 147-167): skip unexported fields
when `CompareUnexportedFields` is off, otherwise push the field name, recurse
into the paired field values, pop, and break once `MaxDiff` is reached.  The
second argument is the b-side field cursor (`none` when `b` is not a struct;
reaching a missing b-side field is the out-of-range panic of `b.Field(i)`). -/
def structLoopF (cfg : Config) : Nat → Fields → Option Fields → Nat → Cmp → Except GoErr Cmp
  | 0, _, _, _, _ => .error .outOfFuel
  | fuel+1, fa, fb, lvl, c =>
    match fa with
    | .nil => .ok c
    | .cons name exported v rest =>
      if !exported && !cfg.CompareUnexportedFields then
        structLoopF cfg fuel rest (dropF fb) lvl c
      else
        match fb with
        | some (.cons _ _ w restB) => do
          let c2 ← equalsF cfg fuel v w lvl (c.push name)
          if cfg.MaxDiff ≤ c2.pop.diff.length then .ok c2.pop
          else structLoopF cfg fuel rest (some restB) lvl c2.pop
        | _ => .error (.goPanic "reflect: Field index out of range")
termination_by structural fuel _ _ _ _ => fuel
/-- The first map loop (`deep.go` lines 197-213): for each key of `a`, push
`map[k]`, recurse when the key exists in `b`, otherwise record the a-value
against `<does not have key>`; pop; return from `equals` once `MaxDiff` is
reached (skipping the second loop).  At natural exhaustion control continues
into the second loop (`mapLoop2F`). -/
def mapLoop1F (cfg : Config) : Nat → Entries → Entries → Entries → Nat → Cmp → Except GoErr Cmp
  | 0, _, _, _, _, _ => .error .outOfFuel
  | fuel+1, ea, eb, rem, lvl, c =>
    match rem with
    | .nil => mapLoop2F cfg fuel ea eb eb c
    | .cons k av rest =>
      match lookupE k eb with
      | some bv => do
        let c2 ← equalsF cfg fuel av bv lvl (c.push ("map[" ++ k ++ "]"))
        if cfg.MaxDiff ≤ c2.pop.diff.length then .ok c2.pop
        else mapLoop1F cfg fuel ea eb rest lvl c2.pop
      | none =>
        if cfg.MaxDiff ≤ (pushSave c ("map[" ++ k ++ "]") (vreprV av) "<does not have key>").diff.length
        then .ok (pushSave c ("map[" ++ k ++ "]") (vreprV av) "<does not have key>")
        else mapLoop1F cfg fuel ea eb rest lvl
          (pushSave c ("map[" ++ k ++ "]") (vreprV av) "<does not have key>")
termination_by structural fuel _ _ _ _ _ => fuel
/-- The second map loop (`deep.go` lines 215-226): for each key of `b` absent
from `a`, push `map[k]`, record `<does not have key>` against the b-value,
pop, and return once `MaxDiff` is reached. -/
def mapLoop2F (cfg : Config) : Nat → Entries → Entries → Entries → Cmp → Except GoErr Cmp
  | 0, _, _, _, _ => .error .outOfFuel
  | fuel+1, ea, eb, rem, c =>
    match rem with
    | .nil => .ok c
    | .cons k bv rest =>
      if (lookupE k ea).isSome then mapLoop2F cfg fuel ea eb rest c
      else
        if cfg.MaxDiff ≤ (pushSave c ("map[" ++ k ++ "]") "<does not have key>" (vreprV bv)).diff.length
        then .ok (pushSave c ("map[" ++ k ++ "]") "<does not have key>" (vreprV bv))
        else mapLoop2F cfg fuel ea eb rest
          (pushSave c ("map[" ++ k ++ "]") "<does not have key>" (vreprV bv))
termination_by structural fuel _ _ _ _ => fuel
/-- The slice index loop (`deep.go` lines 247-260): iterate indices up to the
longer length, push `slice[i]`, recurse when the index is valid on both
sides, otherwise record the present element against `<no value>`; pop; break
once `MaxDiff` is reached. -/
def sliceLoopF (cfg : Config) : Nat → Nat → Elems → Elems → Nat → Cmp → Except GoErr Cmp
  | 0, _, _, _, _, _ => .error .outOfFuel
  | fuel+1, i, xs, ys, lvl, c =>
    match xs, ys with
    | .nil, .nil => .ok c
    | .cons x xrest, .cons y yrest => do
      let c2 ← equalsF cfg fuel x y lvl (c.push ("slice[" ++ toString i ++ "]"))
      if cfg.MaxDiff ≤ c2.pop.diff.length then .ok c2.pop
      else sliceLoopF cfg fuel (i+1) xrest yrest lvl c2.pop
    | .cons x xrest, .nil =>
      if cfg.MaxDiff ≤ (pushSave c ("slice[" ++ toString i ++ "]") (vreprV x) "<no value>").diff.length
      then .ok (pushSave c ("slice[" ++ toString i ++ "]") (vreprV x) "<no value>")
      else sliceLoopF cfg fuel (i+1) xrest .nil lvl
        (pushSave c ("slice[" ++ toString i ++ "]") (vreprV x) "<no value>")
    | .nil, .cons y yrest =>
      if cfg.MaxDiff ≤ (pushSave c ("slice[" ++ toString i ++ "]") "<no value>" (vreprV y)).diff.length
      then .ok (pushSave c ("slice[" ++ toString i ++ "]") "<no value>" (vreprV y))
      else sliceLoopF cfg fuel (i+1) .nil yrest lvl
        (pushSave c ("slice[" ++ toString i ++ "]") "<no value>" (vreprV y))
termination_by structural fuel _ _ _ _ _ => fuel
end

/-- `deep.Equal` (`deep.go` lines 64-77): compare two values from a fresh
session and return the collected differences (Go returns `nil` for the empty
list; both are modelled by `[]`).  A Go `nil` interface argument is `none`:
`reflect.ValueOf(nil)` is the zero `reflect.Value`, and `equals` immediately
calls `Type()` on it, which panics.  The fuel passed to `equalsF` exceeds any
possible consumption of the walk, which `equalsF_no_outOfFuel` proves. -/
def Equal (cfg : Config) (a b : Option Val) : Except GoErr (List String) :=
  match a, b with
  | some x, some y =>
    match equalsF cfg (2 ^ (vsize x + vsize y) + 1) x y 0 ⟨[], []⟩ with
    | .ok c => .ok c.diff
    | .error e => .error e
  | _, _ => .error (.goPanic "reflect: call of reflect.Value.Type on zero Value")

/-! Basic lemmas about the session state. -/

/-- `push` does not touch the collected differences. -/
theorem Cmp.push_diff (c : Cmp) (s : String) : (c.push s).diff = c.diff := rfl

/-- `pop` does not touch the collected differences. -/
theorem Cmp.pop_diff (c : Cmp) : c.pop.diff = c.diff := rfl

/-- `saveDiff` does not touch the path stack. -/
theorem Cmp.saveDiff_buff (c : Cmp) (x y : String) : (c.saveDiff x y).buff = c.buff := by
  unfold Cmp.saveDiff
  split <;> rfl

/-- `pop` undoes `push`. -/
theorem Cmp.pop_push (c : Cmp) (s : String) : (c.push s).pop = c := by
  cases c with
  | mk d bu => simp [Cmp.push, Cmp.pop]

/-- One rendered difference record at a given path stack. -/
def record (buff : List String) (x y : String) : String :=
  if buff.length > 0 then String.intercalate "." buff ++ ": " ++ x ++ " != " ++ y
  else x ++ " != " ++ y

/-- `saveDiff` appends exactly one record, rendered from the current path. -/
theorem Cmp.saveDiff_diff (c : Cmp) (x y : String) :
    (c.saveDiff x y).diff = c.diff ++ [record c.buff x y] := by
  unfold Cmp.saveDiff record
  split <;> simp_all

/-- A record at the root (empty path stack). -/
theorem record_nil (x y : String) : record [] x y = x ++ " != " ++ y := rfl

/-- A record one path segment deep. -/
theorem record_one (s x y : String) : record [s] x y = s ++ ": " ++ x ++ " != " ++ y := by
  simp [record, String.intercalate, String.intercalate.go]

/-! Fuel arithmetic helpers. -/

/-- Powers of two are positive. -/
theorem one_le_two_pow (n : Nat) : 1 ≤ 2 ^ n := Nat.one_le_pow n 2 (by norm_num)

/-- Passing one level down with one unit of fuel consumed, keeping a `+ 1`
slack in the bound. -/
theorem pow_fuel_step {a b g : Nat} (ha : 1 ≤ a) (h : a + 1 ≤ b) (hb : 2 ^ b ≤ g + 1) :
    2 ^ a + 1 ≤ g := by
  have h1 : 2 ^ (a + 1) ≤ 2 ^ b := Nat.pow_le_pow_right (by norm_num) h
  have h2 : 2 ^ (a + 1) = 2 * 2 ^ a := by ring
  have h3 : 2 ≤ 2 ^ a := by
    calc 2 = 2 ^ 1 := rfl
    _ ≤ 2 ^ a := Nat.pow_le_pow_right (by norm_num) ha
  omega

/-- Passing one level down with one unit of fuel consumed. -/
theorem pow_le_step {a b g : Nat} (h : a + 1 ≤ b) (hb : 2 ^ b ≤ g + 1) : 2 ^ a ≤ g := by
  have h1 : 2 ^ (a + 1) ≤ 2 ^ b := Nat.pow_le_pow_right (by norm_num) h
  have h2 : 2 ^ (a + 1) = 2 * 2 ^ a := by ring
  have h3 : 1 ≤ 2 ^ a := one_le_two_pow a
  omega

/-- Every value has at least one node. -/
theorem one_le_vsize (v : Val) : 1 ≤ vsize v := by
  cases v <;> simp [vsize]

/-- Reducing a bind on a successful step. -/
theorem bindOk {β : Type} (x : Cmp) (f : Cmp → Except GoErr β) :
    (Except.ok x >>= f) = f x := rfl

/-- Reducing a bind on an abnormal step. -/
theorem bindErr {β : Type} (e : GoErr) (f : Cmp → Except GoErr β) :
    ((Except.error e : Except GoErr Cmp) >>= f) = .error e := rfl


/-- Unsupported kinds fall through the switch with no record (`deep.go`
line 292), for any fuel and any contents. -/
theorem vswitch_unsupported (cfg : Config) (fuel : Nat) (hf : 1 ≤ fuel)
    (t1 t2 : String) (n1 n2 l : Nat) (c : Cmp) :
    vswitch cfg fuel (.unsupported t1 n1) (.unsupported t2 n2) l c = .ok c := by
  cases fuel with
  | zero => omega
  | succ g => simp [vswitch, eqTokOf]

/-- C2: values of differing dynamic types yield exactly the single
type-mismatch record at the current (root) path, with no descent. -/
theorem C2_type_mismatch (cfg : Config) (a b : Val) (h : a.ty ≠ b.ty) :
    Equal cfg (some a) (some b) = .ok [a.ty ++ " != " ++ b.ty] := by
  simp only [Equal]
  rw [equalsF]
  simp [h, Cmp.saveDiff]

/-- Witness for C2 at a concrete pair of differently-typed values. -/
theorem C2_type_mismatch_witness :
    Equal defaultConfig (some (Val.intV "int" 1)) (some (Val.stringV "string" "x"))
      = .ok ["int != string"] := by
  rw [C2_type_mismatch defaultConfig (Val.intV "int" 1) (Val.stringV "string" "x") (by decide)]
  rfl

/-- C8: after unwrapping, nil-vs-present records the present side's type
against `<nil pointer>` exactly once and returns; nil-vs-nil records
nothing. -/
theorem C8_nil_indirection (cfg : Config) (pty : String) (v : Val) :
    (Equal cfg (some (.ptr pty (.some v))) (some (.ptr pty .none))
      = .ok [v.ty ++ " != <nil pointer>"]) ∧
    (Equal cfg (some (.ptr pty .none)) (some (.ptr pty (.some v)))
      = .ok ["<nil pointer> != " ++ v.ty]) ∧
    (Equal cfg (some (.ptr pty .none)) (some (.ptr pty .none)) = .ok []) := by
  refine ⟨?_, ?_, ?_⟩ <;>
    (simp only [Equal]; rw [equalsF]; simp [Val.ty, unwrap, Cmp.saveDiff, String.append_assoc])

/-- When the unwrapped type exposes an `Equal` method, the comparator calls it
and returns without structural descent (`deep.go` lines 121-128): no record
when the method returns true, one record built from the two unwrapped values'
`%v` renderings when it returns false. -/
theorem vswitch_eqMethod (cfg : Config) (fuel : Nat) (hf : 1 ≤ fuel)
    (ty : String) (ta tb : Nat) (fa fb : Fields) (l : Nat) (c : Cmp) :
    vswitch cfg fuel (.structV ty (some ta) fa) (.structV ty (some tb) fb) l c
      = .ok (if ta = tb then c
             else c.saveDiff (vreprV (.structV ty (some ta) fa))
                             (vreprV (.structV ty (some tb) fb))) := by
  cases fuel with
  | zero => omega
  | succ g =>
    by_cases hab : ta = tb <;> simp [vswitch, eqTokOf, Val.ty, hab]

/-- C7: a value whose (unwrapped) type exposes an `Equal` method is compared
by that method only — never by structural descent (the result ignores the
fields' contents) — and a false result records exactly one difference built
from the two unwrapped values' representations.  The second conjunct runs the
same pair behind an indirection. -/
theorem C7_equal_method (cfg : Config) (pty ty : String) (ta tb : Nat) (fa fb : Fields) :
    (Equal cfg (some (.structV ty (some ta) fa)) (some (.structV ty (some tb) fb))
      = .ok (if ta = tb then []
             else [vreprV (.structV ty (some ta) fa) ++ " != "
                    ++ vreprV (.structV ty (some tb) fb)])) ∧
    (Equal cfg (some (.ptr pty (.some (.structV ty (some ta) fa))))
               (some (.ptr pty (.some (.structV ty (some tb) fb))))
      = .ok (if ta = tb then []
             else [vreprV (.structV ty (some ta) fa) ++ " != "
                    ++ vreprV (.structV ty (some tb) fb)])) := by
  constructor <;>
    (simp only [Equal]; rw [equalsF];
     simp [Val.ty, unwrap, vswitch_eqMethod, one_le_two_pow, Cmp.saveDiff];
     by_cases hab : ta = tb <;> simp [hab])

/-- Float leaves are compared by their fixed-point renderings at the
configured precision (`deep.go` lines 266-273); on mismatch the record holds
the original values' renderings, not the rounded text. -/
theorem vswitch_float (cfg : Config) (fuel : Nat) (hf : 1 ≤ fuel)
    (t : String) (m1 : Int) (e1 : Nat) (m2 : Int) (e2 l : Nat) (c : Cmp) :
    vswitch cfg fuel (.floatV t m1 e1) (.floatV t m2 e2) l c
      = .ok (if fmtFixed cfg.FloatPrecision m1 e1 = fmtFixed cfg.FloatPrecision m2 e2 then c
             else c.saveDiff (fmtFloatV m1 e1) (fmtFloatV m2 e2)) := by
  cases fuel with
  | zero => omega
  | succ g =>
    by_cases hq : fmtFixed cfg.FloatPrecision m1 e1 = fmtFixed cfg.FloatPrecision m2 e2 <;>
      simp [vswitch, eqTokOf, hq]

/-- C9: float leaves of the same type are judged equal iff their fixed-point
text renderings at `FloatPrecision` digits agree (not their raw binary
values), and a mismatch records the two original float values.  Concretely,
for the binary64 values of `0.1 + 0.2` (= 1351079888211149/2^52) and `0.3`
(= 5404319552844595/2^54): at the default precision of 10 digits the result
is empty, and at precision 17 it is the single record of the two original
values. -/
theorem C9_float_text_compare :
    (∀ (cfg : Config) (t : String) (m1 : Int) (e1 : Nat) (m2 : Int) (e2 : Nat)
        (l : Nat) (c : Cmp) (fuel : Nat), l ≤ cfg.MaxDepth →
      equalsF cfg (fuel + 2) (.floatV t m1 e1) (.floatV t m2 e2) l c
        = .ok (if fmtFixed cfg.FloatPrecision m1 e1 = fmtFixed cfg.FloatPrecision m2 e2 then c
               else c.saveDiff (fmtFloatV m1 e1) (fmtFloatV m2 e2))) ∧
    (Equal defaultConfig (some (.floatV "float64" 1351079888211149 52))
        (some (.floatV "float64" 5404319552844595 54)) = .ok []) ∧
    (Equal { defaultConfig with FloatPrecision := 17 }
        (some (.floatV "float64" 1351079888211149 52))
        (some (.floatV "float64" 5404319552844595 54))
      = .ok ["1351079888211149@52 != 5404319552844595@54"]) := by
  refine ⟨?_, rfl, rfl⟩
  intro cfg t m1 e1 m2 e2 l c fuel hl
  rw [show fuel + 2 = (fuel + 1) + 1 from rfl, equalsF]
  rw [if_neg (by omega)]
  simp only [Val.ty, ne_eq, not_true_eq_false, ite_false, unwrap]
  rw [vswitch_float cfg (fuel + 1) (by omega)]

/-- Witness for C9's first conjunct at the concrete binary64 inputs of the
spec's float scenario. -/
theorem C9_float_text_compare_witness :
    (0 ≤ defaultConfig.MaxDepth) ∧
    equalsF defaultConfig 2 (.floatV "float64" 1351079888211149 52)
      (.floatV "float64" 5404319552844595 54) 0 ⟨[], []⟩ = .ok ⟨[], []⟩ := by
  refine ⟨by omega, ?_⟩
  rw [C9_float_text_compare.1 defaultConfig "float64" 1351079888211149 52 5404319552844595 54
    0 ⟨[], []⟩ 0 (by decide)]
  rfl

/-- Node count of the b-side field cursor of the struct loop. -/
def ofsize : Option Fields → Nat
  | none => 0
  | some f => fsize f

/-- Advancing the b-side cursor does not increase its node count. -/
theorem ofsize_dropF_le (fb : Option Fields) : ofsize (dropF fb) ≤ ofsize fb := by
  cases fb with
  | none => simp [dropF, ofsize]
  | some f =>
    cases f with
    | nil => simp [dropF, ofsize]
    | cons n e v rest =>
      have := one_le_vsize v
      simp [dropF, ofsize, fsize]

/-- Unwrapping does not increase the node count. -/
theorem unwrap_vsize {a a2 : Val} {t : String} (h : unwrap a = (.some a2, t)) :
    vsize a2 ≤ vsize a := by
  cases a with
  | ptr pt e =>
    cases e with
    | none => simp [unwrap] at h
    | some v =>
      simp [unwrap] at h
      obtain ⟨h1, h2⟩ := h
      subst h1
      simp [vsize, osize]
  | structV pt tok f => simp [unwrap] at h; obtain ⟨h1, h2⟩ := h; subst h1; exact le_refl _
  | mapV pt m i => simp [unwrap] at h; obtain ⟨h1, h2⟩ := h; subst h1; exact le_refl _
  | sliceV pt sl i => simp [unwrap] at h; obtain ⟨h1, h2⟩ := h; subst h1; exact le_refl _
  | floatV pt m e => simp [unwrap] at h; obtain ⟨h1, h2⟩ := h; subst h1; exact le_refl _
  | boolV pt b => simp [unwrap] at h; obtain ⟨h1, h2⟩ := h; subst h1; exact le_refl _
  | intV pt i => simp [unwrap] at h; obtain ⟨h1, h2⟩ := h; subst h1; exact le_refl _
  | uintV pt u => simp [unwrap] at h; obtain ⟨h1, h2⟩ := h; subst h1; exact le_refl _
  | stringV pt st => simp [unwrap] at h; obtain ⟨h1, h2⟩ := h; subst h1; exact le_refl _
  | unsupported pt n => simp [unwrap] at h; obtain ⟨h1, h2⟩ := h; subst h1; exact le_refl _

/-- A value found by `lookupE` is structurally inside the entry list. -/
theorem lookupE_vsize : ∀ (ents : Entries) (k : String) (v : Val),
    lookupE k ents = some v → vsize v + 1 ≤ esize ents
  | .nil, k, v => by simp [lookupE]
  | .cons k2 w rest, k, v => by
    simp only [lookupE]
    split
    · intro h
      cases h
      simp only [esize]
      omega
    · intro h
      have := lookupE_vsize rest k v h
      simp only [esize]
      omega

/-- Joint fuel-adequacy statement: with fuel exceeding the exponential of the
inputs' node counts, the walk never exhausts its fuel — the model's recursion
always terminates normally (with a result or a modelled Go panic), as the
source's recursion does. -/
theorem noFuel_conj (cfg : Config) : ∀ fuel : Nat,
    (∀ a b l c, 2 ^ (vsize a + vsize b) + 1 ≤ fuel →
      equalsF cfg fuel a b l c ≠ .error .outOfFuel) ∧
    (∀ a2 b2 l c, 2 ^ (vsize a2 + vsize b2) ≤ fuel →
      vswitch cfg fuel a2 b2 l c ≠ .error .outOfFuel) ∧
    (∀ fa fb lvl c, 2 ^ (fsize fa + ofsize fb + 1) ≤ fuel →
      structLoopF cfg fuel fa fb lvl c ≠ .error .outOfFuel) ∧
    (∀ ea eb rem lvl c, 2 ^ (esize rem + esize eb + 1) ≤ fuel →
      mapLoop1F cfg fuel ea eb rem lvl c ≠ .error .outOfFuel) ∧
    (∀ ea eb rem c, 2 ^ (esize rem) ≤ fuel →
      mapLoop2F cfg fuel ea eb rem c ≠ .error .outOfFuel) ∧
    (∀ i xs ys lvl c, 2 ^ (llsize xs + llsize ys + 1) ≤ fuel →
      sliceLoopF cfg fuel i xs ys lvl c ≠ .error .outOfFuel) := by
  intro fuel
  induction fuel with
  | zero =>
    refine ⟨fun a b l c h => ?_, fun a b l c h => ?_, fun fa fb lvl c h => ?_,
            fun ea eb rem lvl c h => ?_, fun ea eb rem c h => ?_, fun i xs ys lvl c h => ?_⟩
    · exact absurd h (by have := one_le_two_pow (vsize a + vsize b); omega)
    · exact absurd h (by have := one_le_two_pow (vsize a + vsize b); omega)
    · exact absurd h (by have := one_le_two_pow (fsize fa + ofsize fb + 1); omega)
    · exact absurd h (by have := one_le_two_pow (esize rem + esize eb + 1); omega)
    · exact absurd h (by have := one_le_two_pow (esize rem); omega)
    · exact absurd h (by have := one_le_two_pow (llsize xs + llsize ys + 1); omega)
  | succ g ih =>
    obtain ⟨ihE, ihW, ihS, ihM1, ihM2, ihSL⟩ := ih
    refine ⟨fun a b l c h => ?_, fun a2 b2 l c h => ?_, fun fa fb lvl c h => ?_,
            fun ea eb rem lvl c h => ?_, fun ea eb rem c h => ?_, fun i xs ys lvl c h => ?_⟩
    · -- entry point
      rw [equalsF]
      by_cases hd : cfg.MaxDepth < l
      · simp [hd]
      · rw [if_neg hd]
        split
        · simp
        · rcases hua : unwrap a with ⟨oa, ta⟩
          rcases hub : unwrap b with ⟨ob, tb⟩
          cases oa with
          | none => cases ob <;> simp
          | some a2 =>
            cases ob with
            | none => simp
            | some b2 =>
              refine ihW a2 b2 l c ?_
              have h1 := unwrap_vsize hua
              have h2 := unwrap_vsize hub
              have hm : 2 ^ (vsize a2 + vsize b2) ≤ 2 ^ (vsize a + vsize b) :=
                Nat.pow_le_pow_right (by norm_num) (by omega)
              omega
    · -- kind switch
      have hva := one_le_vsize a2
      have hvb := one_le_vsize b2
      cases a2 with
      | ptr t e =>
        cases e with
        | none => simp [vswitch, eqTokOf]
        | some v =>
          cases v with
          | structV st tok pf =>
            cases tok with
            | some ta2 =>
              cases b2 <;> simp only [vswitch, eqTokOf] <;> (repeat' split) <;> simp
            | none => simp [vswitch, eqTokOf]
          | ptr t2 e2 => simp [vswitch, eqTokOf]
          | mapV t2 m2 i2 => simp [vswitch, eqTokOf]
          | sliceV t2 s2 i2 => simp [vswitch, eqTokOf]
          | floatV t2 m2 e2 => simp [vswitch, eqTokOf]
          | boolV t2 b2 => simp [vswitch, eqTokOf]
          | intV t2 i2 => simp [vswitch, eqTokOf]
          | uintV t2 u2 => simp [vswitch, eqTokOf]
          | stringV t2 s2 => simp [vswitch, eqTokOf]
          | unsupported t2 n2 => simp [vswitch, eqTokOf]
      | structV t tok f =>
        cases tok with
        | some ta2 =>
          cases b2 <;> simp only [vswitch, eqTokOf] <;> (repeat' split) <;> simp
        | none =>
          cases b2 <;> simp only [vswitch, eqTokOf] <;>
            exact ihS f _ (l+1) c (pow_le_step (by simp [vsize, ofsize, fsize]; omega) h)
      | mapV t m i =>
        cases b2 with
        | mapV t2 m2 i2 =>
          cases m with
          | none => cases m2 <;> simp [vswitch, eqTokOf]
          | some la =>
            cases m2 with
            | none => simp [vswitch, eqTokOf]
            | some lb =>
              simp only [vswitch, eqTokOf]
              split
              · simp
              · refine ihM1 la lb la (l+1) c (pow_le_step ?_ h)
                simp only [vsize, msize]
                omega
        | ptr t2 e2 => simp [vswitch, eqTokOf]
        | structV t2 tok2 f2 => simp [vswitch, eqTokOf]
        | sliceV t2 s2 i2 => simp [vswitch, eqTokOf]
        | floatV t2 m2 e2 => simp [vswitch, eqTokOf]
        | boolV t2 b2 => simp [vswitch, eqTokOf]
        | intV t2 i2 => simp [vswitch, eqTokOf]
        | uintV t2 u2 => simp [vswitch, eqTokOf]
        | stringV t2 s2 => simp [vswitch, eqTokOf]
        | unsupported t2 n2 => simp [vswitch, eqTokOf]
      | sliceV t sl i =>
        cases b2 with
        | sliceV t2 sl2 i2 =>
          cases sl with
          | none => cases sl2 <;> simp [vswitch, eqTokOf]
          | some la =>
            cases sl2 with
            | none => simp [vswitch, eqTokOf]
            | some lb =>
              simp only [vswitch, eqTokOf]
              split
              · simp
              · refine ihSL 0 la lb (l+1) c (pow_le_step ?_ h)
                simp only [vsize, lsize]
                omega
        | ptr t2 e2 => simp [vswitch, eqTokOf]
        | structV t2 tok2 f2 => simp [vswitch, eqTokOf]
        | mapV t2 m2 i2 => simp [vswitch, eqTokOf]
        | floatV t2 m2 e2 => simp [vswitch, eqTokOf]
        | boolV t2 b2 => simp [vswitch, eqTokOf]
        | intV t2 i2 => simp [vswitch, eqTokOf]
        | uintV t2 u2 => simp [vswitch, eqTokOf]
        | stringV t2 s2 => simp [vswitch, eqTokOf]
        | unsupported t2 n2 => simp [vswitch, eqTokOf]
      | floatV t m e =>
        cases b2 <;> simp only [vswitch, eqTokOf] <;> (repeat' split) <;> simp
      | boolV t b =>
        cases b2 <;> simp only [vswitch, eqTokOf] <;> (repeat' split) <;> simp
      | intV t i =>
        cases b2 <;> simp only [vswitch, eqTokOf] <;> (repeat' split) <;> simp
      | uintV t u =>
        cases b2 <;> simp only [vswitch, eqTokOf] <;> (repeat' split) <;> simp
      | stringV t st =>
        cases b2 <;> simp only [vswitch, eqTokOf] <;> (repeat' split) <;> simp
      | unsupported t n =>
        cases b2 <;> simp only [vswitch, eqTokOf] <;> (repeat' split) <;> simp
    · -- struct field loop
      cases fa with
      | nil => simp [structLoopF]
      | cons name e v rest =>
        have hv := one_le_vsize v
        cases fb with
        | none =>
          show (if (!e && !cfg.CompareUnexportedFields) = true
              then structLoopF cfg g rest (dropF none) lvl c
              else Except.error (GoErr.goPanic "reflect: Field index out of range"))
            ≠ Except.error GoErr.outOfFuel
          by_cases hskip : (!e && !cfg.CompareUnexportedFields) = true
          · rw [if_pos hskip]
            refine ihS rest (dropF none) lvl c ?_
            refine pow_le_step (b := fsize (Fields.cons name e v rest) + ofsize none + 1) ?_ h
            have hdrop := ofsize_dropF_le (none : Option Fields)
            simp only [fsize]
            omega
          · rw [if_neg hskip]
            simp
        | some f2 =>
          cases f2 with
          | nil =>
            show (if (!e && !cfg.CompareUnexportedFields) = true
                then structLoopF cfg g rest (dropF (some Fields.nil)) lvl c
                else Except.error (GoErr.goPanic "reflect: Field index out of range"))
              ≠ Except.error GoErr.outOfFuel
            by_cases hskip : (!e && !cfg.CompareUnexportedFields) = true
            · rw [if_pos hskip]
              refine ihS rest (dropF (some Fields.nil)) lvl c ?_
              refine pow_le_step (b := fsize (Fields.cons name e v rest) + ofsize (some Fields.nil) + 1) ?_ h
              have hdrop := ofsize_dropF_le (some Fields.nil)
              simp only [fsize]
              omega
            · rw [if_neg hskip]
              simp
          | cons n2 e2 w restB =>
            rw [structLoopF]
            by_cases hskip : (!e && !cfg.CompareUnexportedFields) = true
            · rw [if_pos hskip]
              refine ihS rest (dropF (some (Fields.cons n2 e2 w restB))) lvl c ?_
              refine pow_le_step
                (b := fsize (Fields.cons name e v rest) + ofsize (some (Fields.cons n2 e2 w restB)) + 1) ?_ h
              have hdrop := ofsize_dropF_le (some (Fields.cons n2 e2 w restB))
              simp only [fsize]
              omega
            · rw [if_neg hskip]
              show (equalsF cfg g v w lvl (c.push name) >>= fun c2 =>
                  if cfg.MaxDiff ≤ c2.pop.diff.length then Except.ok c2.pop
                  else structLoopF cfg g rest (some restB) lvl c2.pop) ≠ Except.error GoErr.outOfFuel
              have hw := one_le_vsize w
              have hbound : 2 ^ (vsize v + vsize w) + 1 ≤ g := by
                refine pow_fuel_step (by omega)
                  (b := fsize (Fields.cons name e v rest) + ofsize (some (Fields.cons n2 e2 w restB)) + 1) ?_ h
                simp only [fsize, ofsize]
                omega
              have hne := ihE v w lvl (c.push name) hbound
              cases he : equalsF cfg g v w lvl (c.push name) with
              | error err =>
                rw [bindErr]
                exact he ▸ hne
              | ok c2 =>
                simp only [bindOk]
                split
                · simp
                · refine ihS rest (some restB) lvl c2.pop (pow_le_step ?_ h)
                  simp only [fsize, ofsize]
                  omega
    · -- first map loop
      cases rem with
      | nil =>
        rw [mapLoop1F]
        refine ihM2 ea eb eb c (pow_le_step ?_ h)
        simp only [esize]
        omega
      | cons k av rest =>
        rw [mapLoop1F]
        have hav := one_le_vsize av
        cases hlk : lookupE k eb with
        | some bv =>
          show (equalsF cfg g av bv lvl (c.push ("map[" ++ k ++ "]")) >>= fun c2 =>
              if cfg.MaxDiff ≤ c2.pop.diff.length then Except.ok c2.pop
              else mapLoop1F cfg g ea eb rest lvl c2.pop) ≠ Except.error GoErr.outOfFuel
          have hbv := lookupE_vsize eb k bv hlk
          have hbv1 := one_le_vsize bv
          have hbound : 2 ^ (vsize av + vsize bv) + 1 ≤ g := by
            refine pow_fuel_step (by omega)
              (b := esize (Entries.cons k av rest) + esize eb + 1) ?_ h
            simp only [esize]
            omega
          have hne := ihE av bv lvl (c.push ("map[" ++ k ++ "]")) hbound
          cases he : equalsF cfg g av bv lvl (c.push ("map[" ++ k ++ "]")) with
          | error err =>
            rw [bindErr]
            exact he ▸ hne
          | ok c2 =>
            simp only [bindOk]
            split
            · simp
            · refine ihM1 ea eb rest lvl c2.pop (pow_le_step ?_ h)
              simp only [esize]
              omega
        | none =>
          show (if cfg.MaxDiff ≤ (pushSave c ("map[" ++ k ++ "]") (vreprV av) "<does not have key>").diff.length
              then Except.ok (pushSave c ("map[" ++ k ++ "]") (vreprV av) "<does not have key>")
              else mapLoop1F cfg g ea eb rest lvl
                (pushSave c ("map[" ++ k ++ "]") (vreprV av) "<does not have key>"))
            ≠ Except.error GoErr.outOfFuel
          split
          · simp
          · refine ihM1 ea eb rest lvl _ (pow_le_step ?_ h)
            simp only [esize]
            omega
    · -- second map loop
      cases rem with
      | nil => simp [mapLoop2F]
      | cons k bv rest =>
        rw [mapLoop2F]
        have hbv := one_le_vsize bv
        split
        · refine ihM2 ea eb rest _ (pow_le_step ?_ h)
          simp only [esize]
          omega
        · split
          · simp
          · refine ihM2 ea eb rest _ (pow_le_step ?_ h)
            simp only [esize]
            omega
    · -- slice loop
      cases xs with
      | nil =>
        cases ys with
        | nil => simp [sliceLoopF]
        | cons y yrest =>
          rw [sliceLoopF]
          have hy := one_le_vsize y
          split
          · simp
          · refine ihSL (i+1) .nil yrest lvl _ (pow_le_step ?_ h)
            simp only [llsize]
            omega
      | cons x xrest =>
        have hx := one_le_vsize x
        cases ys with
        | nil =>
          rw [sliceLoopF]
          split
          · simp
          · refine ihSL (i+1) xrest .nil lvl _ (pow_le_step ?_ h)
            simp only [llsize]
            omega
        | cons y yrest =>
          rw [sliceLoopF]
          have hy := one_le_vsize y
          have hbound : 2 ^ (vsize x + vsize y) + 1 ≤ g := by
            refine pow_fuel_step (by omega)
              (b := llsize (Elems.cons x xrest) + llsize (Elems.cons y yrest) + 1) ?_ h
            simp only [llsize]
            omega
          have hne := ihE x y lvl (c.push ("slice[" ++ toString i ++ "]")) hbound
          cases he : equalsF cfg g x y lvl (c.push ("slice[" ++ toString i ++ "]")) with
          | error err =>
            rw [bindErr]
            exact he ▸ hne
          | ok c2 =>
            simp only [bindOk]
            split
            · simp
            · refine ihSL (i+1) xrest yrest lvl c2.pop (pow_le_step ?_ h)
              simp only [llsize]
              omega

/-- A nested structure of the given depth ending in the int leaf `0`:
`struct N \x7b Inner N \x7d` chains with an `int` at the bottom. -/
def nestA : Nat → Val
  | 0 => .intV "int" 0
  | n+1 => .structV "N" none (.cons "Inner" true (nestA n) .nil)

/-- The same nesting shape ending in the differing int leaf `1`. -/
def nestB : Nat → Val
  | 0 => .intV "int" 1
  | n+1 => .structV "N" none (.cons "Inner" true (nestB n) .nil)

/-- Node count of the nested family. -/
theorem nestA_vsize : ∀ n, vsize (nestA n) = 2 * n + 1
  | 0 => by simp [nestA, vsize]
  | n+1 => by simp [nestA, vsize, fsize, nestA_vsize n]; ring

/-- Node count of the nested family. -/
theorem nestB_vsize : ∀ n, vsize (nestB n) = 2 * n + 1
  | 0 => by simp [nestB, vsize]
  | n+1 => by simp [nestB, vsize, fsize, nestB_vsize n]; ring

/-- When the depth budget runs out before the differing leaf is reached, the
nested comparison returns with nothing recorded. -/
theorem nest_trunc : ∀ (n : Nat) (cfg : Config) (l : Nat) (c : Cmp) (fuel : Nat),
    cfg.MaxDepth < l + n → 3 * n + 1 ≤ fuel →
    equalsF cfg fuel (nestA n) (nestB n) l c = .ok c := by
  intro n
  induction n with
  | zero =>
    intro cfg l c fuel hd hf
    cases fuel with
    | zero => omega
    | succ g =>
      rw [equalsF, if_pos (by omega)]
  | succ m ih =>
    intro cfg l c fuel hd hf
    cases fuel with
    | zero => omega
    | succ g =>
      rw [equalsF]
      by_cases hdep : cfg.MaxDepth < l
      · rw [if_pos hdep]
      · rw [if_neg hdep]
        cases g with
        | zero => omega
        | succ g2 =>
          simp only [nestA, nestB, Val.ty, ne_eq, not_true_eq_false, ite_false, unwrap,
            vswitch, eqTokOf]
          cases g2 with
          | zero => omega
          | succ g3 =>
            rw [structLoopF, if_neg (by simp)]
            show (equalsF cfg g3 (nestA m) (nestB m) (l+1) (c.push "Inner") >>= fun c2 =>
                if cfg.MaxDiff ≤ c2.pop.diff.length then Except.ok c2.pop
                else structLoopF cfg g3 Fields.nil (some Fields.nil) (l+1) c2.pop)
              = Except.ok c
            rw [ih cfg (l+1) (c.push "Inner") g3 (by omega) (by omega), bindOk, Cmp.pop_push]
            cases g3 with
            | zero => omega
            | succ g4 =>
              rw [structLoopF]
              split <;> rfl

/-- C4: the recursive comparison always terminates — the depth guard abandons
any branch whose level exceeds `MaxDepth` with nothing recorded, the walk
never exhausts its (more than sufficient) fuel, and a structure nested deeper
than `MaxDepth` with its only difference at the bottom is compared to
completion with the difference truncated away. -/
theorem C4_depth_guard :
    (∀ cfg fuel a b l c, cfg.MaxDepth < l → equalsF cfg (fuel + 1) a b l c = .ok c) ∧
    (∀ cfg x y, Equal cfg (some x) (some y) ≠ .error .outOfFuel) ∧
    (∀ cfg n, cfg.MaxDepth < n → Equal cfg (some (nestA n)) (some (nestB n)) = .ok []) := by
  refine ⟨?_, ?_, ?_⟩
  · intro cfg fuel a b l c hd
    rw [equalsF, if_pos hd]
  · intro cfg x y
    simp only [Equal]
    have h := (noFuel_conj cfg (2 ^ (vsize x + vsize y) + 1)).1 x y 0 ⟨[], []⟩ (le_refl _)
    cases he : equalsF cfg (2 ^ (vsize x + vsize y) + 1) x y 0 ⟨[], []⟩ with
    | ok c => simp
    | error e =>
      have hne : e ≠ .outOfFuel := fun hcontra => h (by rw [he, hcontra])
      simpa using hne
  · intro cfg n hd
    simp only [Equal]
    rw [nest_trunc n cfg 0 ⟨[], []⟩ _ (by omega) ?_]
    rw [nestA_vsize, nestB_vsize]
    have h2 := Nat.lt_two_pow (2 * n + 1 + (2 * n + 1))
    omega

/-- Witness for C4 at concrete inputs: the depth guard at level 11 with the
default `MaxDepth` of 10, and the truncated deep-nest comparison. -/
theorem C4_depth_guard_witness :
    defaultConfig.MaxDepth < 11 ∧
    equalsF defaultConfig 1 (.intV "int" 0) (.intV "int" 1) 11 ⟨[], []⟩ = .ok ⟨[], []⟩ ∧
    Equal defaultConfig (some (nestA 11)) (some (nestB 11)) = .ok [] :=
  ⟨by decide, C4_depth_guard.1 defaultConfig 0 _ _ 11 ⟨[], []⟩ (by decide),
   C4_depth_guard.2.2 defaultConfig 11 (by decide)⟩

/-- `saveDiff` grows the record list by exactly one. -/
theorem saveDiff_length (c : Cmp) (x y : String) :
    (c.saveDiff x y).diff.length = c.diff.length + 1 := by
  rw [Cmp.saveDiff_diff]
  simp

/-- `pushSave` grows the record list by exactly one. -/
theorem pushSave_length (c : Cmp) (seg x y : String) :
    (pushSave c seg x y).diff.length = c.diff.length + 1 := by
  simp [pushSave, Cmp.pop_diff, saveDiff_length, Cmp.push_diff]

/-- Joint cap-invariant statement: starting below the `MaxDiff` cap, every
part of the walk returns with at most `MaxDiff` collected records — the cap
checks after each emission stop the loop before the cap is left behind by
more than the single record an emission adds. -/
theorem capInv_conj (cfg : Config) : ∀ fuel : Nat,
    (∀ a b l c c', c.diff.length < cfg.MaxDiff → equalsF cfg fuel a b l c = .ok c' →
      c'.diff.length ≤ cfg.MaxDiff) ∧
    (∀ a2 b2 l c c', c.diff.length < cfg.MaxDiff → vswitch cfg fuel a2 b2 l c = .ok c' →
      c'.diff.length ≤ cfg.MaxDiff) ∧
    (∀ fa fb lvl c c', c.diff.length < cfg.MaxDiff → structLoopF cfg fuel fa fb lvl c = .ok c' →
      c'.diff.length ≤ cfg.MaxDiff) ∧
    (∀ ea eb rem lvl c c', c.diff.length < cfg.MaxDiff → mapLoop1F cfg fuel ea eb rem lvl c = .ok c' →
      c'.diff.length ≤ cfg.MaxDiff) ∧
    (∀ ea eb rem c c', c.diff.length < cfg.MaxDiff → mapLoop2F cfg fuel ea eb rem c = .ok c' →
      c'.diff.length ≤ cfg.MaxDiff) ∧
    (∀ i xs ys lvl c c', c.diff.length < cfg.MaxDiff → sliceLoopF cfg fuel i xs ys lvl c = .ok c' →
      c'.diff.length ≤ cfg.MaxDiff) := by
  intro fuel
  induction fuel with
  | zero =>
    refine ⟨fun a b l c c' h he => ?_, fun a b l c c' h he => ?_, fun fa fb lvl c c' h he => ?_,
            fun ea eb rem lvl c c' h he => ?_, fun ea eb rem c c' h he => ?_,
            fun i xs ys lvl c c' h he => ?_⟩ <;>
      simp [equalsF, vswitch, structLoopF, mapLoop1F, mapLoop2F, sliceLoopF] at he
  | succ g ih =>
    obtain ⟨ihE, ihW, ihS, ihM1, ihM2, ihSL⟩ := ih
    refine ⟨fun a b l c c' h he => ?_, fun a2 b2 l c c' h he => ?_, fun fa fb lvl c c' h he => ?_,
            fun ea eb rem lvl c c' h he => ?_, fun ea eb rem c c' h he => ?_,
            fun i xs ys lvl c c' h he => ?_⟩
    · -- entry point
      rw [equalsF] at he
      split at he
      · cases he
        omega
      · split at he
        · cases he
          simp only [saveDiff_length]
          omega
        · split at he
          · cases he
            simp only [saveDiff_length]
            omega
          · cases he
            simp only [saveDiff_length]
            omega
          · cases he
            omega
          · exact ihW _ _ _ _ _ h he
    · -- kind switch
      cases a2 with
      | ptr t e =>
        cases e with
        | none =>
          simp only [vswitch, eqTokOf] at he
          cases he
          omega
        | some v =>
          cases v with
          | structV st tok pf =>
            cases tok with
            | some ta2 =>
              cases b2 <;> simp only [vswitch, eqTokOf] at he <;> (repeat' split at he) <;>
                cases he <;> first | omega | (simp only [saveDiff_length]; omega)
            | none =>
              simp only [vswitch, eqTokOf] at he
              cases he
              omega
          | ptr t2 e2 =>
            simp only [vswitch, eqTokOf] at he
            cases he
            omega
          | mapV t2 m2 i2 =>
            simp only [vswitch, eqTokOf] at he
            cases he
            omega
          | sliceV t2 s2 i2 =>
            simp only [vswitch, eqTokOf] at he
            cases he
            omega
          | floatV t2 m2 e2 =>
            simp only [vswitch, eqTokOf] at he
            cases he
            omega
          | boolV t2 b2 =>
            simp only [vswitch, eqTokOf] at he
            cases he
            omega
          | intV t2 i2 =>
            simp only [vswitch, eqTokOf] at he
            cases he
            omega
          | uintV t2 u2 =>
            simp only [vswitch, eqTokOf] at he
            cases he
            omega
          | stringV t2 s2 =>
            simp only [vswitch, eqTokOf] at he
            cases he
            omega
          | unsupported t2 n2 =>
            simp only [vswitch, eqTokOf] at he
            cases he
            omega
      | structV t tok f =>
        cases tok with
        | some ta2 =>
          cases b2 <;> simp only [vswitch, eqTokOf] at he <;> (repeat' split at he) <;>
            cases he <;> first | omega | (simp only [saveDiff_length]; omega)
        | none =>
          cases b2 <;> simp only [vswitch, eqTokOf] at he <;> exact ihS _ _ _ _ _ h he
      | mapV t m i =>
        cases b2 with
        | mapV t2 m2 i2 =>
          cases m with
          | none =>
            cases m2 <;> simp only [vswitch, eqTokOf] at he <;> cases he <;>
              first | omega | (simp only [saveDiff_length]; omega)
          | some la =>
            cases m2 with
            | none =>
              simp only [vswitch, eqTokOf] at he
              cases he
              simp only [saveDiff_length]
              omega
            | some lb =>
              simp only [vswitch, eqTokOf] at he
              split at he
              · cases he
                omega
              · exact ihM1 _ _ _ _ _ _ h he
        | ptr t2 e2 => simp [vswitch, eqTokOf] at he
        | structV t2 tok2 f2 => simp [vswitch, eqTokOf] at he
        | sliceV t2 s2 i2 => simp [vswitch, eqTokOf] at he
        | floatV t2 m2 e2 => simp [vswitch, eqTokOf] at he
        | boolV t2 b2 => simp [vswitch, eqTokOf] at he
        | intV t2 i2 => simp [vswitch, eqTokOf] at he
        | uintV t2 u2 => simp [vswitch, eqTokOf] at he
        | stringV t2 s2 => simp [vswitch, eqTokOf] at he
        | unsupported t2 n2 => simp [vswitch, eqTokOf] at he
      | sliceV t sl i =>
        cases b2 with
        | sliceV t2 sl2 i2 =>
          cases sl with
          | none =>
            cases sl2 <;> simp only [vswitch, eqTokOf] at he <;> cases he <;>
              first | omega | (simp only [saveDiff_length]; omega)
          | some la =>
            cases sl2 with
            | none =>
              simp only [vswitch, eqTokOf] at he
              cases he
              simp only [saveDiff_length]
              omega
            | some lb =>
              simp only [vswitch, eqTokOf] at he
              split at he
              · cases he
                omega
              · exact ihSL _ _ _ _ _ _ h he
        | ptr t2 e2 => simp [vswitch, eqTokOf] at he
        | structV t2 tok2 f2 => simp [vswitch, eqTokOf] at he
        | mapV t2 m2 i2 => simp [vswitch, eqTokOf] at he
        | floatV t2 m2 e2 => simp [vswitch, eqTokOf] at he
        | boolV t2 b2 => simp [vswitch, eqTokOf] at he
        | intV t2 i2 => simp [vswitch, eqTokOf] at he
        | uintV t2 u2 => simp [vswitch, eqTokOf] at he
        | stringV t2 s2 => simp [vswitch, eqTokOf] at he
        | unsupported t2 n2 => simp [vswitch, eqTokOf] at he
      | floatV t m e =>
        cases b2 <;> simp only [vswitch, eqTokOf] at he <;> (repeat' split at he) <;>
          cases he <;> first | omega | (simp only [saveDiff_length]; omega)
      | boolV t b =>
        cases b2 <;> simp only [vswitch, eqTokOf] at he <;> (repeat' split at he) <;>
          cases he <;> first | omega | (simp only [saveDiff_length]; omega)
      | intV t i =>
        cases b2 <;> simp only [vswitch, eqTokOf] at he <;> (repeat' split at he) <;>
          cases he <;> first | omega | (simp only [saveDiff_length]; omega)
      | uintV t u =>
        cases b2 <;> simp only [vswitch, eqTokOf] at he <;> (repeat' split at he) <;>
          cases he <;> first | omega | (simp only [saveDiff_length]; omega)
      | stringV t st =>
        cases b2 <;> simp only [vswitch, eqTokOf] at he <;> (repeat' split at he) <;>
          cases he <;> first | omega | (simp only [saveDiff_length]; omega)
      | unsupported t n =>
        cases b2 <;> simp only [vswitch, eqTokOf] at he <;> (repeat' split at he) <;>
          cases he <;> first | omega | (simp only [saveDiff_length]; omega)
    · -- struct field loop
      cases fa with
      | nil =>
        rw [structLoopF] at he
        cases he
        omega
      | cons name e v rest =>
        cases fb with
        | none =>
          replace he : (if (!e && !cfg.CompareUnexportedFields) = true
              then structLoopF cfg g rest (dropF none) lvl c
              else Except.error (GoErr.goPanic "reflect: Field index out of range"))
            = Except.ok c' := he
          split at he
          · exact ihS _ _ _ _ _ h he
          · cases he
        | some f2 =>
          cases f2 with
          | nil =>
            replace he : (if (!e && !cfg.CompareUnexportedFields) = true
                then structLoopF cfg g rest (dropF (some Fields.nil)) lvl c
                else Except.error (GoErr.goPanic "reflect: Field index out of range"))
              = Except.ok c' := he
            split at he
            · exact ihS _ _ _ _ _ h he
            · cases he
          | cons n2 e2 w restB =>
            replace he : (if (!e && !cfg.CompareUnexportedFields) = true
                then structLoopF cfg g rest (dropF (some (Fields.cons n2 e2 w restB))) lvl c
                else (equalsF cfg g v w lvl (c.push name) >>= fun c2 =>
                  if cfg.MaxDiff ≤ c2.pop.diff.length then Except.ok c2.pop
                  else structLoopF cfg g rest (some restB) lvl c2.pop))
              = Except.ok c' := he
            split at he
            · exact ihS _ _ _ _ _ h he
            · cases hres : equalsF cfg g v w lvl (c.push name) with
              | error err =>
                rw [hres, bindErr] at he
                cases he
              | ok c2 =>
                rw [hres] at he
                simp only [bindOk] at he
                have hcap := ihE _ _ _ _ _ (by simpa [Cmp.push_diff] using h) hres
                split at he
                · cases he
                  simpa [Cmp.pop_diff] using hcap
                · rename_i hno
                  refine ihS _ _ _ _ _ ?_ he
                  rw [Cmp.pop_diff] at hno ⊢
                  omega
    · -- first map loop
      cases rem with
      | nil =>
        rw [mapLoop1F] at he
        exact ihM2 _ _ _ _ _ h he
      | cons k av rest =>
        rw [mapLoop1F] at he
        split at he
        · rename_i bv heq
          cases hres : equalsF cfg g av bv lvl (c.push ("map[" ++ k ++ "]")) with
          | error err =>
            rw [hres, bindErr] at he
            cases he
          | ok c2 =>
            rw [hres] at he
            simp only [bindOk] at he
            have hcap := ihE _ _ _ _ _ (by simpa [Cmp.push_diff] using h) hres
            split at he
            · cases he
              simpa [Cmp.pop_diff] using hcap
            · rename_i hno
              refine ihM1 _ _ _ _ _ _ ?_ he
              rw [Cmp.pop_diff] at hno ⊢
              omega
        · split at he
          · cases he
            simp only [pushSave_length]
            omega
          · rename_i hno
            refine ihM1 _ _ _ _ _ _ ?_ he
            rw [pushSave_length] at hno ⊢
            omega
    · -- second map loop
      cases rem with
      | nil =>
        rw [mapLoop2F] at he
        cases he
        omega
      | cons k bv rest =>
        rw [mapLoop2F] at he
        split at he
        · exact ihM2 _ _ _ _ _ h he
        · split at he
          · cases he
            simp only [pushSave_length]
            omega
          · rename_i hno
            refine ihM2 _ _ _ _ _ ?_ he
            rw [pushSave_length] at hno ⊢
            omega
    · -- slice loop
      cases xs with
      | nil =>
        cases ys with
        | nil =>
          rw [sliceLoopF] at he
          cases he
          omega
        | cons y yrest =>
          rw [sliceLoopF] at he
          split at he
          · cases he
            simp only [pushSave_length]
            omega
          · rename_i hno
            refine ihSL _ _ _ _ _ _ ?_ he
            rw [pushSave_length] at hno ⊢
            omega
      | cons x xrest =>
        cases ys with
        | nil =>
          rw [sliceLoopF] at he
          split at he
          · cases he
            simp only [pushSave_length]
            omega
          · rename_i hno
            refine ihSL _ _ _ _ _ _ ?_ he
            rw [pushSave_length] at hno ⊢
            omega
        | cons y yrest =>
          rw [sliceLoopF] at he
          cases hres : equalsF cfg g x y lvl (c.push ("slice[" ++ toString i ++ "]")) with
          | error err =>
            rw [hres, bindErr] at he
            cases he
          | ok c2 =>
            rw [hres] at he
            simp only [bindOk] at he
            have hcap := ihE _ _ _ _ _ (by simpa [Cmp.push_diff] using h) hres
            split at he
            · cases he
              simpa [Cmp.pop_diff] using hcap
            · rename_i hno
              refine ihSL _ _ _ _ _ _ ?_ he
              rw [Cmp.pop_diff] at hno ⊢
              omega

/-- `pushSave` written as the loops' `push`/`saveDiff`/`pop` sequence: record
count. -/
theorem popSave_length (c : Cmp) (seg x y : String) :
    (((c.push seg).saveDiff x y).pop).diff.length = c.diff.length + 1 :=
  pushSave_length c seg x y

/-- The `push`/`saveDiff`/`pop` sequence restores the path stack. -/
theorem popSave_buff (c : Cmp) (seg x y : String) :
    (((c.push seg).saveDiff x y).pop).buff = c.buff := by
  simp [Cmp.pop, Cmp.saveDiff_buff, Cmp.push, List.dropLast_concat]

/-- Evaluating the comparison of two int leaves of the same type. -/
theorem equalsF_int (cfg : Config) (fuel : Nat) (t : String) (x y : Int) (l : Nat) (c : Cmp)
    (hl : l ≤ cfg.MaxDepth) :
    equalsF cfg (fuel + 2) (.intV t x) (.intV t y) l c
      = .ok (if x = y then c else c.saveDiff (toString x) (toString y)) := by
  rw [show fuel + 2 = fuel + 1 + 1 from rfl, equalsF, if_neg (by omega)]
  simp only [Val.ty, ne_eq, not_true_eq_false, ite_false, unwrap]
  by_cases hxy : x = y <;> simp [vswitch, eqTokOf, hxy]

/-- Unfolding the kind switch on two plain (method-less) structs. -/
theorem vswitch_struct (cfg : Config) (fuel : Nat) (hf : 1 ≤ fuel)
    (t : String) (fa fb : Fields) (l : Nat) (c : Cmp) :
    vswitch cfg fuel (.structV t none fa) (.structV t none fb) l c
      = structLoopF cfg (fuel - 1) fa (some fb) (l + 1) c := by
  cases fuel with
  | zero => omega
  | succ g => simp [vswitch, eqTokOf]

/-- Field lists of a flat record whose int fields are all `0`. -/
def flatFieldsA : Nat → Nat → Fields
  | _, 0 => .nil
  | i, n+1 => .cons ("F" ++ toString i) true (.intV "int" 0) (flatFieldsA (i+1) n)

/-- Field lists of a flat record whose int fields are all `1`. -/
def flatFieldsB : Nat → Nat → Fields
  | _, 0 => .nil
  | i, n+1 => .cons ("F" ++ toString i) true (.intV "int" 1) (flatFieldsB (i+1) n)

/-- A flat record with `n` exported int fields, all `0`. -/
def flatA (n : Nat) : Val := .structV "T" none (flatFieldsA 0 n)

/-- A flat record with `n` exported int fields, all `1` — differing from
`flatA n` in every field. -/
def flatB (n : Nat) : Val := .structV "T" none (flatFieldsB 0 n)

/-- Node count of the flat field lists. -/
theorem flatFieldsA_fsize : ∀ n i, fsize (flatFieldsA i n) = 2 * n
  | 0, _ => by simp [flatFieldsA, fsize]
  | n+1, i => by simp [flatFieldsA, fsize, vsize, flatFieldsA_fsize n]; ring

/-- Node count of the flat field lists. -/
theorem flatFieldsB_fsize : ∀ n i, fsize (flatFieldsB i n) = 2 * n
  | 0, _ => by simp [flatFieldsB, fsize]
  | n+1, i => by simp [flatFieldsB, fsize, vsize, flatFieldsB_fsize n]; ring

/-- Walking the flat records' field loop: every visited field emits exactly
one record, and the loop stops exactly at the cap — the final count is the
smaller of `MaxDiff` and the count of differing fields remaining. -/
theorem flat_loop (cfg : Config) : ∀ (n i lvl : Nat) (c : Cmp) (fuel : Nat),
    lvl ≤ cfg.MaxDepth → c.diff.length < cfg.MaxDiff → 3 * n + 1 ≤ fuel →
    ∃ c', structLoopF cfg fuel (flatFieldsA i n) (some (flatFieldsB i n)) lvl c = .ok c' ∧
      c'.diff.length = min (c.diff.length + n) cfg.MaxDiff := by
  intro n
  induction n with
  | zero =>
    intro i lvl c fuel hlvl hcap hf
    cases fuel with
    | zero => omega
    | succ f =>
      refine ⟨c, ?_, ?_⟩
      · simp [flatFieldsA, flatFieldsB, structLoopF]
      · omega
  | succ m ih =>
    intro i lvl c fuel hlvl hcap hf
    cases fuel with
    | zero => omega
    | succ f =>
      have hstep : structLoopF cfg (f+1) (flatFieldsA i (m+1)) (some (flatFieldsB i (m+1))) lvl c
          = (equalsF cfg f (.intV "int" 0) (.intV "int" 1) lvl (c.push ("F" ++ toString i))
              >>= fun c2 =>
            if cfg.MaxDiff ≤ c2.pop.diff.length then Except.ok c2.pop
            else structLoopF cfg f (flatFieldsA (i+1) m) (some (flatFieldsB (i+1) m)) lvl c2.pop) := by
        simp only [flatFieldsA, flatFieldsB]
        rw [structLoopF, if_neg (by simp)]
      obtain ⟨f2, rfl⟩ : ∃ f2, f = f2 + 2 := ⟨f - 2, by omega⟩
      rw [hstep, equalsF_int cfg f2 "int" 0 1 lvl (c.push ("F" ++ toString i)) hlvl,
        if_neg (by decide), bindOk]
      by_cases hstop : cfg.MaxDiff ≤ c.diff.length + 1
      · rw [if_pos (by rw [popSave_length]; omega)]
        refine ⟨_, rfl, ?_⟩
        rw [popSave_length]
        omega
      · rw [if_neg (by rw [popSave_length]; omega)]
        obtain ⟨c', hc', hlen⟩ := ih (i+1) lvl
          ((((c.push ("F" ++ toString i)).saveDiff (toString (0 : Int)) (toString (1 : Int)))).pop)
          (f2 + 2) hlvl (by rw [popSave_length]; omega) (by omega)
        refine ⟨c', hc', ?_⟩
        rw [hlen, popSave_length]
        omega

/-- C3: one top-level `Equal` call never returns more than `MaxDiff` records
(for any inputs, whenever it returns normally), and for two flat records
differing in `n ≥ MaxDiff` fields the result length is exactly `MaxDiff`. -/
theorem C3_cap :
    (∀ cfg a b r, 1 ≤ cfg.MaxDiff → Equal cfg a b = .ok r → r.length ≤ cfg.MaxDiff) ∧
    (∀ cfg n, 1 ≤ cfg.MaxDiff → 1 ≤ cfg.MaxDepth → cfg.MaxDiff ≤ n →
      (Equal cfg (some (flatA n)) (some (flatB n))).map List.length = .ok cfg.MaxDiff) := by
  constructor
  · intro cfg a b r h1 he
    cases a with
    | none => simp [Equal] at he
    | some x =>
      cases b with
      | none => simp [Equal] at he
      | some y =>
        simp only [Equal] at he
        split at he
        · rename_i c heq
          cases he
          exact (capInv_conj cfg _).1 _ _ _ _ _ (by simpa using h1) heq
        · cases he
  · intro cfg n h1 hd hn
    simp only [Equal]
    rw [equalsF]
    rw [if_neg (by omega)]
    simp only [flatA, flatB, Val.ty, ne_eq, not_true_eq_false, ite_false, unwrap]
    rw [vswitch_struct cfg _ (one_le_two_pow _) "T" _ _ 0 ⟨[], []⟩]
    have hsz : vsize (Val.structV "T" none (flatFieldsA 0 n))
        + vsize (Val.structV "T" none (flatFieldsB 0 n)) = 4 * n + 2 := by
      simp [vsize, flatFieldsA_fsize, flatFieldsB_fsize]
      ring
    obtain ⟨c', hc', hlen⟩ := flat_loop cfg n 0 1 ⟨[], []⟩
      (2 ^ (vsize (Val.structV "T" none (flatFieldsA 0 n))
            + vsize (Val.structV "T" none (flatFieldsB 0 n))) - 1)
      (by omega) (by simpa using h1)
      (by rw [hsz]
          have := Nat.lt_two_pow (4 * n + 2)
          omega)
    rw [hc']
    simp only [Except.map]
    congr 1
    simpa using by rw [hlen]; omega

/-- Witness for C3 at concrete inputs: a one-record result is within the
default cap, and 12 differing flat fields are truncated to exactly the
default cap of 10. -/
theorem C3_cap_witness :
    (["0 != 1"].length ≤ defaultConfig.MaxDiff) ∧
    (Equal defaultConfig (some (flatA 12)) (some (flatB 12))).map List.length = .ok 10 := by
  constructor
  · exact C3_cap.1 defaultConfig (some (.intV "int" 0)) (some (.intV "int" 1)) _ (by decide) rfl
  · exact C3_cap.2 defaultConfig 12 (by decide) (by decide) (by decide)

/-- The entries of a map as a list of key/value pairs. -/
def entList : Entries → List (String × Val)
  | .nil => []
  | .cons k v rest => (k, v) :: entList rest

/-- `pushSave` appends exactly the record rendered at the pushed path. -/
theorem pushSave_diff (c : Cmp) (seg x y : String) :
    (pushSave c seg x y).diff = c.diff ++ [record (c.buff ++ [seg]) x y] := by
  simp [pushSave, Cmp.pop_diff, Cmp.saveDiff_diff, Cmp.push]

/-- `pushSave` restores the path stack. -/
theorem pushSave_buff (c : Cmp) (seg x y : String) : (pushSave c seg x y).buff = c.buff :=
  popSave_buff c seg x y

/-- The records the first map loop emits: one `<does not have key>` record for
each a-side entry whose key is absent from `eb`, in iteration order. -/
def missA (eb : Entries) : Entries → List String
  | .nil => []
  | .cons k av rest =>
    if (lookupE k eb).isSome then missA eb rest
    else record ["map[" ++ k ++ "]"] (vreprV av) "<does not have key>" :: missA eb rest

/-- The records the second map loop emits: one `<does not have key>` record
for each b-side entry whose key is absent from `ea`, in iteration order. -/
def missB (ea : Entries) : Entries → List String
  | .nil => []
  | .cons k bv rest =>
    if (lookupE k ea).isSome then missB ea rest
    else record ["map[" ++ k ++ "]"] "<does not have key>" (vreprV bv) :: missB ea rest

/-- Running the second map loop within budget emits exactly the b-side
missing-key records. -/
theorem mapLoop2_run (cfg : Config) (ea eb : Entries) : ∀ (rem : Entries) (c : Cmp) (fuel : Nat),
    c.buff = [] →
    c.diff.length + (missB ea rem).length ≤ cfg.MaxDiff →
    2 ^ (esize rem) ≤ fuel →
    ∃ c', mapLoop2F cfg fuel ea eb rem c = .ok c' ∧ c'.diff = c.diff ++ missB ea rem
  | .nil, c, fuel, hbuff, hbud, hf => by
    cases fuel with
    | zero => exact absurd hf (by have := one_le_two_pow (esize Entries.nil); omega)
    | succ g => exact ⟨c, by rw [mapLoop2F], by simp [missB]⟩
  | .cons k bv rest, c, fuel, hbuff, hbud, hf => by
    cases fuel with
    | zero => exact absurd hf (by have := one_le_two_pow (esize (Entries.cons k bv rest)); omega)
    | succ g =>
      rw [mapLoop2F]
      have hfg : 2 ^ (esize rest) ≤ g := by
        refine pow_le_step (b := esize (Entries.cons k bv rest)) ?_ hf
        have := one_le_vsize bv
        simp only [esize]
        omega
      by_cases hk : (lookupE k ea).isSome
      · rw [if_pos hk]
        obtain ⟨c', hc', hd⟩ := mapLoop2_run cfg ea eb rest c g hbuff
          (by simpa [missB, hk] using hbud) hfg
        exact ⟨c', hc', by rw [hd]; simp [missB, hk]⟩
      · rw [if_neg hk]
        simp only [missB, hk, if_false, Bool.false_eq_true, List.length_cons] at hbud
        by_cases hstop : cfg.MaxDiff ≤ c.diff.length + 1
        · rw [if_pos (by rw [pushSave_length]; omega)]
          have hrest0 : missB ea rest = [] :=
            List.length_eq_zero.mp (by omega)
          refine ⟨_, rfl, ?_⟩
          rw [pushSave_diff, hbuff]
          simp [missB, hk, hrest0]
        · rw [if_neg (by rw [pushSave_length]; omega)]
          obtain ⟨c', hc', hd⟩ := mapLoop2_run cfg ea eb rest
            (pushSave c ("map[" ++ k ++ "]") "<does not have key>" (vreprV bv)) g
            (by rw [pushSave_buff, hbuff]) (by rw [pushSave_length]; omega) hfg
          refine ⟨c', hc', ?_⟩
          rw [hd, pushSave_diff, hbuff]
          simp [missB, hk]
  termination_by structural rem _ _ => rem

/-- Unfolding the kind switch on two non-nil maps of distinct identity. -/
theorem vswitch_map (cfg : Config) (fuel : Nat) (hf : 1 ≤ fuel)
    (t : String) (ea eb : Entries) (ida idb : Nat) (hid : ida ≠ idb) (l : Nat) (c : Cmp) :
    vswitch cfg fuel (.mapV t (.some ea) ida) (.mapV t (.some eb) idb) l c
      = mapLoop1F cfg (fuel - 1) ea eb ea (l + 1) c := by
  cases fuel with
  | zero => omega
  | succ g => simp [vswitch, eqTokOf, hid]

/-- Number of elements of a slice. -/
def ecount : Elems → Nat
  | .nil => 0
  | .cons _ rest => 1 + ecount rest

/-- Concatenation of slice element lists. -/
def eAppend : Elems → Elems → Elems
  | .nil, e => e
  | .cons x rest, e => .cons x (eAppend rest e)

/-- Node count of a concatenation. -/
theorem llsize_eAppend : ∀ a b : Elems, llsize (eAppend a b) = llsize a + llsize b
  | .nil, b => by simp [eAppend, llsize]
  | .cons x rest, b => by
    simp [eAppend, llsize, llsize_eAppend rest b]
    omega

/-- The records for extra trailing a-side elements, from a starting index:
each against `<no value>` on the right. -/
def extraLeft : Nat → Elems → List String
  | _, .nil => []
  | i, .cons x rest =>
    record ["slice[" ++ toString i ++ "]"] (vreprV x) "<no value>" :: extraLeft (i+1) rest

/-- The records for extra trailing b-side elements, from a starting index:
each against `<no value>` on the left. -/
def extraRight : Nat → Elems → List String
  | _, .nil => []
  | i, .cons y rest =>
    record ["slice[" ++ toString i ++ "]"] "<no value>" (vreprV y) :: extraRight (i+1) rest

/-- One record per extra element. -/
theorem extraLeft_length : ∀ (e : Elems) (i : Nat), (extraLeft i e).length = ecount e
  | .nil, _ => by simp [extraLeft, ecount]
  | .cons x rest, i => by simp [extraLeft, ecount, extraLeft_length rest (i+1)]; omega

/-- One record per extra element. -/
theorem extraRight_length : ∀ (e : Elems) (i : Nat), (extraRight i e).length = ecount e
  | .nil, _ => by simp [extraRight, ecount]
  | .cons y rest, i => by simp [extraRight, ecount, extraRight_length rest (i+1)]; omega

/-- Running the slice loop past the a-side's end: each remaining b-side
element emits one `<no value>` record, within budget. -/
theorem sliceTailR (cfg : Config) (lvl : Nat) : ∀ (ys : Elems) (i : Nat) (c : Cmp) (fuel : Nat),
    c.buff = [] →
    c.diff.length + (extraRight i ys).length ≤ cfg.MaxDiff →
    2 ^ (llsize ys + 1) ≤ fuel →
    ∃ c', sliceLoopF cfg fuel i .nil ys lvl c = .ok c' ∧ c'.diff = c.diff ++ extraRight i ys
  | .nil, i, c, fuel, hbuff, hbud, hf => by
    cases fuel with
    | zero => exact absurd hf (by have := one_le_two_pow (llsize Elems.nil + 1); omega)
    | succ g => exact ⟨c, by rw [sliceLoopF], by simp [extraRight]⟩
  | .cons y rest, i, c, fuel, hbuff, hbud, hf => by
    cases fuel with
    | zero => exact absurd hf (by have := one_le_two_pow (llsize (Elems.cons y rest) + 1); omega)
    | succ g =>
      rw [sliceLoopF]
      have hy := one_le_vsize y
      have hfg : 2 ^ (llsize rest + 1) ≤ g := by
        refine pow_le_step (b := llsize (Elems.cons y rest) + 1) ?_ hf
        simp only [llsize]
        omega
      simp only [extraRight, List.length_cons] at hbud
      by_cases hstop : cfg.MaxDiff ≤ c.diff.length + 1
      · rw [if_pos (by rw [pushSave_length]; omega)]
        have h0 : extraRight (i+1) rest = [] := List.length_eq_zero.mp (by omega)
        refine ⟨_, rfl, ?_⟩
        rw [pushSave_diff, hbuff]
        simp [extraRight, h0]
      · rw [if_neg (by rw [pushSave_length]; omega)]
        obtain ⟨c', hc', hd⟩ := sliceTailR cfg lvl rest (i+1)
          (pushSave c ("slice[" ++ toString i ++ "]") "<no value>" (vreprV y)) g
          (by rw [pushSave_buff, hbuff]) (by rw [pushSave_length]; omega) hfg
        refine ⟨c', hc', ?_⟩
        rw [hd, pushSave_diff, hbuff]
        simp [extraRight]
  termination_by structural ys _ _ _ => ys

/-- Running the slice loop past the b-side's end: each remaining a-side
element emits one `<no value>` record, within budget. -/
theorem sliceTailL (cfg : Config) (lvl : Nat) : ∀ (xs : Elems) (i : Nat) (c : Cmp) (fuel : Nat),
    c.buff = [] →
    c.diff.length + (extraLeft i xs).length ≤ cfg.MaxDiff →
    2 ^ (llsize xs + 1) ≤ fuel →
    ∃ c', sliceLoopF cfg fuel i xs .nil lvl c = .ok c' ∧ c'.diff = c.diff ++ extraLeft i xs
  | .nil, i, c, fuel, hbuff, hbud, hf => by
    cases fuel with
    | zero => exact absurd hf (by have := one_le_two_pow (llsize Elems.nil + 1); omega)
    | succ g => exact ⟨c, by rw [sliceLoopF], by simp [extraLeft]⟩
  | .cons x rest, i, c, fuel, hbuff, hbud, hf => by
    cases fuel with
    | zero => exact absurd hf (by have := one_le_two_pow (llsize (Elems.cons x rest) + 1); omega)
    | succ g =>
      rw [sliceLoopF]
      have hx := one_le_vsize x
      have hfg : 2 ^ (llsize rest + 1) ≤ g := by
        refine pow_le_step (b := llsize (Elems.cons x rest) + 1) ?_ hf
        simp only [llsize]
        omega
      simp only [extraLeft, List.length_cons] at hbud
      by_cases hstop : cfg.MaxDiff ≤ c.diff.length + 1
      · rw [if_pos (by rw [pushSave_length]; omega)]
        have h0 : extraLeft (i+1) rest = [] := List.length_eq_zero.mp (by omega)
        refine ⟨_, rfl, ?_⟩
        rw [pushSave_diff, hbuff]
        simp [extraLeft, h0]
      · rw [if_neg (by rw [pushSave_length]; omega)]
        obtain ⟨c', hc', hd⟩ := sliceTailL cfg lvl rest (i+1)
          (pushSave c ("slice[" ++ toString i ++ "]") (vreprV x) "<no value>") g
          (by rw [pushSave_buff, hbuff]) (by rw [pushSave_length]; omega) hfg
        refine ⟨c', hc', ?_⟩
        rw [hd, pushSave_diff, hbuff]
        simp [extraLeft]
  termination_by structural xs _ _ _ => xs

/-- Unfolding the kind switch on two non-nil slices of distinct identity. -/
theorem vswitch_slice (cfg : Config) (fuel : Nat) (hf : 1 ≤ fuel)
    (t : String) (la lb : Elems) (ida idb : Nat) (hid : ida ≠ idb) (l : Nat) (c : Cmp) :
    vswitch cfg fuel (.sliceV t (.some la) ida) (.sliceV t (.some lb) idb) l c
      = sliceLoopF cfg (fuel - 1) 0 la lb (l + 1) c := by
  cases fuel with
  | zero => omega
  | succ g => simp [vswitch, eqTokOf, hid]

/-- C10: the claimed panic-freedom fails on nil interface inputs.
`Equal(nil, x)` calls `reflect.ValueOf(nil)`, which yields the zero
`reflect.Value`, and `equals` immediately calls `a.Type()` on it
(`deep.go` line 85), which panics with
"reflect: call of reflect.Value.Type on zero Value" before any diff can be
collected; the panic propagates to the caller.  The model evaluates the
entry point at that failing input. -/
theorem C10_nil_input_panics :
    Equal defaultConfig none none
      = .error (.goPanic "reflect: call of reflect.Value.Type on zero Value") := rfl

/-- A `time.Time`-like struct value: its type declares a value-receiver
`Equal` method (the modelled fields are irrelevant on the method path, which
never descends). -/
def timeCarrier : Val := .structV "time.Time" (.some 0) .nil

/-- A non-nil `*time.Time` pointing at `timeCarrier`.  Seen as the
once-unwrapped value, its method set contains the promoted `Equal`, whose
`Call` expects a `time.Time` argument. -/
def ptrToCarrier : Val := .ptr "*time.Time" (.some timeCarrier)

/-- C1: reflexivity fails in the program.  For `x` a non-nil `**time.Time`,
`Equal(x, x)` unwraps one pointer level (`deep.go` lines 95-108), finds
`time.Time`'s `Equal` in `*time.Time`'s method set
(`a.MethodByName("Equal")`, line 121), and `eqFunc.Call([]reflect.Value{b})`
(line 123) panics "reflect: Call using wrong argument type": the argument is
the `*time.Time` `b`, the method expects a `time.Time`.  The same `Call`
panics for structs with unexported `time.Time` fields when
`CompareUnexportedFields` is on.  The entry point evaluated at the failing
input propagates the panic instead of returning the empty result the claim
requires. -/
theorem C1_reflexivity_panics :
    Equal defaultConfig
      (some (.ptr "**time.Time" (.some ptrToCarrier)))
      (some (.ptr "**time.Time" (.some ptrToCarrier)))
      = .error (.goPanic "reflect: Call using wrong argument type") := rfl

/-- C5: the claimed key coverage fails in the program when a shared key holds
an interface value wrapping a `*time.Time`: recursing into the shared key
`k` unwraps the interface to the `*time.Time`, finds the promoted `Equal`
(`deep.go` line 121), and `Call` (line 123) panics on the mis-typed argument
before the loops can reach the key `k2` present only on the left.  The claim
predicts exactly one `<does not have key>` record for `k2`; the program
panics instead. -/
theorem C5_poisoned_shared_key_panics :
    Equal defaultConfig
      (some (.mapV "map[string]any"
        (.some (.cons "k" (.ptr "any" (.some ptrToCarrier))
          (.cons "k2" (.intV "int" 5) .nil))) 1))
      (some (.mapV "map[string]any"
        (.some (.cons "k" (.ptr "any" (.some ptrToCarrier)) .nil)) 2))
      = .error (.goPanic "reflect: Call using wrong argument type") := rfl

/-- C6: the claimed index coverage fails in the program when the common
prefix holds an interface value wrapping a `*time.Time`: comparing index 0
unwraps the interface to the `*time.Time`, finds the promoted `Equal`
(`deep.go` line 121), and `Call` (line 123) panics on the mis-typed argument
before the loop can reach index 1, which only the right side holds.  The
claim predicts exactly one `<no value>` record at index 1; the program
panics instead. -/
theorem C6_poisoned_prefix_panics :
    Equal defaultConfig
      (some (.sliceV "[]any" (.some (.cons (.ptr "any" (.some ptrToCarrier)) .nil)) 1))
      (some (.sliceV "[]any"
        (.some (.cons (.ptr "any" (.some ptrToCarrier)) (.cons (.intV "int" 9) .nil))) 2))
      = .error (.goPanic "reflect: Call using wrong argument type") := rfl

end Deep
